import Mathlib

/-!
Verification of the multi-shard media store in ottprovider-filter2-bot
(src/database/ia_filterdb.py).

Shallow embedding conventions:
* Python strings are modelled as `List Char`; byte strings as `List Nat`
  (each element a byte value below 256).
* Each Mongo shard is a `List MediaRec` in insertion (natural) order.
  `find(filter).sort(natural, -1)` is `(store.filter …).reverse`, and
  `to_list(length = n)` is `take n`.
* The external regex engine (`re.compile`) is not embedded: search
  operations take a parameter `compiled : Option (List Char → Bool)`,
  `some m` standing for a successfully compiled pattern with matching
  function `m`, and `none` for `re.error` during compilation.
* The shard size oracle (`dbstats dataSize`) and unexpected store
  failures are external: `save_file` takes per-shard parameters
  `cap : Option Nat` (`none` = the size query raised) and
  `fault : Bool` (`true` = `commit()` raises an unexpected error).
* `FileId.decode` is external (pyrogram); `unpack_new_file_id` takes the
  already decoded descriptor `FileDesc` as input.
* Exceptions are modelled with `Except PyExc`; the `try/except` blocks of
  the source are mirrored by matches on the `Except` value.
-/

namespace OttFilter

/-! ### Character and list helpers -/

/-- Whitespace recognised by Python str.strip (the common cases). -/
def isSpaceChar (c : Char) : Bool :=
  c == ' ' || c == '\t' || c == '\n' || c == '\r'

/-- Python str.strip: drop leading and trailing whitespace. -/
def stripChars (l : List Char) : List Char :=
  ((l.dropWhile isSpaceChar).reverse.dropWhile isSpaceChar).reverse

/-- Python str.lower (ASCII). -/
def lowerChars (l : List Char) : List Char :=
  l.map Char.toLower

/-- Does the second list occur at the head of the first? -/
def listStartsWith : List Char → List Char → Bool
  | _, [] => true
  | [], _ :: _ => false
  | a :: as, b :: bs => a == b && listStartsWith as bs

/-- Python substring containment: pat occurs contiguously inside l. -/
def containsSub : List Char → List Char → Bool
  | [], pat => listStartsWith [] pat
  | l@(_ :: rest), pat => listStartsWith l pat || containsSub rest pat

/-- re.sub((_|-|.|+), " ", name): replace each separator char by a space. -/
def normalizeName (l : List Char) : List Char :=
  l.map (fun c => if c == '_' || c == '-' || c == '.' || c == '+' then ' ' else c)

/-- Python mime.split(slash)[0]: the prefix of the string before the first
slash, or the whole string when no slash occurs. -/
def splitSlashHead (l : List Char) : List Char :=
  l.takeWhile (fun c => c != '/')

/-! ### Identifier codec (encode_file_id / encode_file_ref / unpack_new_file_id) -/

/-- w bytes of v, little endian (the byte layout used by struct.pack). -/
def toBytesLE : Nat → Nat → List Nat
  | 0, _ => []
  | w + 1, v => v % 256 :: toBytesLE w (v / 256)

/-- Little-endian byte decoding, inverse of toBytesLE. -/
def fromBytesLE : List Nat → Nat
  | [] => 0
  | b :: rest => b + 256 * fromBytesLE rest

/-- struct.pack of a signed 32-bit value: two's complement, little endian. -/
def int32LE (x : Int) : List Nat :=
  toBytesLE 4 (x % 4294967296).toNat

/-- struct.pack of a signed 64-bit value: two's complement, little endian. -/
def int64LE (x : Int) : List Nat :=
  toBytesLE 8 (x % 18446744073709551616).toNat

/-- pack("<iiqq", a, b, c, d): the 24-byte little-endian layout. -/
def pack_iiqq (a b c d : Int) : List Nat :=
  int32LE a ++ int32LE b ++ int64LE c ++ int64LE d

/-- The base64url alphabet character for a six-bit value. -/
def b64Char (n : Nat) : Char :=
  if n < 26 then Char.ofNat (65 + n)
  else if n < 52 then Char.ofNat (71 + n)
  else if n < 62 then Char.ofNat (n - 4)
  else if n = 62 then '-'
  else '_'

/-- Inverse of the base64url alphabet (arbitrary on non-alphabet chars). -/
def b64DecodeChar (c : Char) : Nat :=
  if c = '-' then 62
  else if c = '_' then 63
  else if 97 ≤ c.toNat then c.toNat - 71
  else if 65 ≤ c.toNat then c.toNat - 65
  else c.toNat + 4

/-- base64.urlsafe_b64encode followed by rstrip of the padding: the final
chunk of one or two bytes yields two or three characters and no padding. -/
def b64EncodeNoPad : List Nat → List Char
  | [] => []
  | [a] => [b64Char (a / 4), b64Char (a % 4 * 16)]
  | [a, b] =>
      [b64Char (a / 4), b64Char (a % 4 * 16 + b / 16), b64Char (b % 16 * 4)]
  | a :: b :: c :: rest =>
      b64Char (a / 4) :: b64Char (a % 4 * 16 + b / 16) ::
        b64Char (b % 16 * 4 + c / 64) :: b64Char (c % 64) :: b64EncodeNoPad rest

/-- Decoder for padding-free base64url, inverse of b64EncodeNoPad. -/
def b64DecodeNoPad : List Char → List Nat
  | w :: x :: y :: z :: rest =>
      (b64DecodeChar w * 4 + b64DecodeChar x / 16) ::
        (b64DecodeChar x % 16 * 16 + b64DecodeChar y / 4) ::
        (b64DecodeChar y % 4 * 64 + b64DecodeChar z) :: b64DecodeNoPad rest
  | [w, x] => [b64DecodeChar w * 4 + b64DecodeChar x / 16]
  | [w, x, y] =>
      [b64DecodeChar w * 4 + b64DecodeChar x / 16,
       b64DecodeChar x % 16 * 16 + b64DecodeChar y / 4]
  | _ => []

/-- The accumulator loop of encode_file_id: n counts the pending run of
zero bytes; a non-zero byte flushes the run as the pair 0, n.  A run still
pending when the input ends is discarded, exactly as in the source (the
source never meets that case because of the non-zero trailer byte). -/
def encodeLoop : List Nat → Nat → List Nat
  | [], _ => []
  | i :: rest, n =>
      if i = 0 then encodeLoop rest (n + 1)
      else (if n = 0 then [] else [0, n]) ++ i :: encodeLoop rest 0

/-- encode_file_id: append the trailer bytes 22 and 4, run-length compress
zero bytes, then base64url encode without padding. -/
def encode_file_id (s : List Nat) : List Char :=
  b64EncodeNoPad (encodeLoop (s ++ [22, 4]) 0)

/-- encode_file_ref: base64url encode the raw reference blob, no padding. -/
def encode_file_ref (r : List Nat) : List Char :=
  b64EncodeNoPad r

/-- The upstream descriptor as produced by FileId.decode (external). -/
structure FileDesc where
  file_type : Int
  dc_id : Int
  media_id : Int
  access_hash : Int
  file_reference : List Nat
deriving DecidableEq

/-- unpack_new_file_id: derive the storage key and the reference token. -/
def unpack_new_file_id (d : FileDesc) : List Char × List Char :=
  (encode_file_id (pack_iiqq d.file_type d.dc_id d.media_id d.access_hash),
   encode_file_ref d.file_reference)

/-! Spec-side codec definitions (from the words of the specification):
"replace every run of N consecutive zero bytes by the two-byte sequence
0x00, N; non-zero bytes pass through unchanged". -/

/-- Run-length compression as described by the spec, with k the length of
the run of zeros currently being read.  Unlike the loop in the source it
also flushes a run that reaches the end of the input. -/
def specRleAux : Nat → List Nat → List Nat
  | k, [] => if k = 0 then [] else [0, k]
  | k, b :: rest =>
      if b = 0 then specRleAux (k + 1) rest
      else (if k = 0 then [] else [0, k]) ++ b :: specRleAux 0 rest

/-- Zero-run compression of a byte list, following the spec wording. -/
def specRle (l : List Nat) : List Nat :=
  specRleAux 0 l

/-- The storage key as the spec describes it: pack the four fields little
endian, append the two trailer bytes, replace zero runs, base64url encode
and strip the padding. -/
def storageKeySpec (d : FileDesc) : List Char :=
  b64EncodeNoPad
    (specRle (pack_iiqq d.file_type d.dc_id d.media_id d.access_hash ++ [22, 4]))

/-- The reference token as the spec describes it. -/
def refTokenSpec (d : FileDesc) : List Char :=
  b64EncodeNoPad d.file_reference

/-- Inverse of the zero-run compression: a zero byte is always followed by
the length of the run it replaces. -/
def rleDecode : List Nat → List Nat
  | [] => []
  | 0 :: n :: rest => List.replicate n 0 ++ rleDecode rest
  | b :: rest => b :: rleDecode rest

/-- The signed 32-bit range accepted by struct.pack for format i. -/
def i32Bounded (x : Int) : Prop :=
  -2147483648 ≤ x ∧ x < 2147483648

/-- The signed 64-bit range accepted by struct.pack for format q. -/
def i64Bounded (x : Int) : Prop :=
  -9223372036854775808 ≤ x ∧ x < 9223372036854775808

instance (x : Int) : Decidable (i32Bounded x) := by
  unfold i32Bounded; infer_instance

instance (x : Int) : Decidable (i64Bounded x) := by
  unfold i64Bounded; infer_instance

/-! ### Media store model -/

/-- A stored document of the Media collections.  The field file_id is the
Mongo primary key (StrField with attribute _id).  The field created is a
ghost creation-order marker (the creation instant of the record, §3 of the
spec); the source never reads it: the sort key of get_search_results reads
generation_time from the record id, which is the file_id string and hence
has no such attribute, so the getattr default 0 is always used. -/
structure MediaRec where
  file_id : List Char
  file_ref : Option (List Char)
  file_name : List Char
  file_size : Int
  mime_type : Option (List Char)
  caption : Option (List Char)
  file_type : Option (List Char)
  created : Nat
deriving DecidableEq

/-- A value of a Mongo filter on a string field: a compiled pattern
(matching anywhere in the field) or a plain string (exact equality). -/
inductive FilterVal where
  | regex (m : List Char → Bool)
  | lit (s : List Char)

/-- The filter document used by the query functions: a FilterVal on
file_name and an optional equality constraint on file_type. -/
structure FilterQ where
  nameF : FilterVal
  typeF : Option (List Char)

/-- Whether a record satisfies a filter document. -/
def recMatches (f : FilterQ) (r : MediaRec) : Bool :=
  (match f.nameF with
    | .regex m => m r.file_name
    | .lit s => r.file_name == s) &&
  (match f.typeF with
    | none => true
    | some t => r.file_type == some t)

/-- The sort key of get_search_results: getattr(x.id, generation_time, 0).
x.id is the record primary key, the file_id string, which has no
generation_time attribute, so the default 0 is returned for every record. -/
def sortKey (_ : MediaRec) : Nat := 0

/-- Stable insertion into a list sorted by descending key: the inserted
element precedes later elements with the same key, as in Python list.sort
with reverse=True. -/
def insertDescBy (k : MediaRec → Nat) (x : MediaRec) : List MediaRec → List MediaRec
  | [] => [x]
  | y :: ys => if k x < k y then y :: insertDescBy k x ys else x :: y :: ys

/-- Stable sort by descending key (models list.sort(key=…, reverse=True)). -/
def sortDescBy (k : MediaRec → Nat) : List MediaRec → List MediaRec
  | [] => []
  | x :: xs => insertDescBy k x (sortDescBy k xs)

/-- The fields of the incoming pyrogram media object that save_file reads.
file_id stands for the decoded descriptor (FileId.decode is external);
caption already stands for caption.html-if-caption-else-None. -/
structure MediaIn where
  file_id : FileDesc
  file_name : List Char
  file_size : Option Int
  mime_type : Option (List Char)
  caption : Option (List Char)
deriving DecidableEq

/-- The Python exceptions that the save path can meet. -/
inductive PyExc where
  | validation
  | dupKey
  | unexpected
deriving DecidableEq

/-- The outcome strings of save_file. -/
inductive SaveResult where
  | suc
  | dup
  | err
deriving DecidableEq

/-- The record that save_file builds for a media object with a present
file_size (mirrors the Model(...) keyword arguments). -/
def recordOf (m : MediaIn) (sz : Int) : MediaRec :=
  { file_id := (unpack_new_file_id m.file_id).1
    file_ref := some (unpack_new_file_id m.file_id).2
    file_name := normalizeName m.file_name
    file_size := sz
    mime_type := m.mime_type
    caption := m.caption
    file_type :=
      match m.mime_type with
      | none => none
      | some [] => none
      | some mt => some (splitSlashHead mt)
    created := 0 }

/-- Model(...) construction: marshmallow validation rejects a missing
required file_size with ValidationError. -/
def mkRecord (m : MediaIn) : Except PyExc MediaRec :=
  match m.file_size with
  | none => .error .validation
  | some sz => .ok (recordOf m sz)

/-- file.commit(): the store enforces uniqueness of the primary key and
raises DuplicateKeyError on a pre-existing key; fault = true stands for an
unexpected store error raised during persistence. -/
def commitRec (store : List MediaRec) (r : MediaRec) (fault : Bool) :
    Except PyExc (List MediaRec) :=
  if fault then .error .unexpected
  else if store.any (fun x => x.file_id == r.file_id) then .error .dupKey
  else .ok (store ++ [r])

/-- The 480 GiB capacity ceiling of save_file. -/
def CEILING : Nat := 480 * 1024 * 1024 * 1024

/-- One iteration of the save_file loop: everything inside the try block.
Returns ok (some res) when the body executed a return statement,
ok none when the capacity test was false and the loop moves on, and
error e when an exception escaped the body (to be caught by the
except Exception handler of the loop). -/
def saveShardBody (m : MediaIn) (store : List MediaRec) (cap : Option Nat)
    (fault : Bool) : Except PyExc (Option (SaveResult × List MediaRec)) :=
  match cap with
  | none => .error .unexpected
  | some sz =>
    if sz < CEILING then
      match mkRecord m with
      | .error .validation => .ok (some (.err, store))
      | .error e => .error e
      | .ok r =>
        match commitRec store r fault with
        | .error .dupKey => .ok (some (.dup, store))
        | .error e => .error e
        | .ok st => .ok (some (.suc, st))
    else .ok none

/-- The for-loop of save_file over the shard triples (store, size oracle,
commit fault flag).  An exception from the body is caught by
except Exception and the loop continues with the next shard; falling off
the loop returns err. -/
def saveLoop (m : MediaIn) :
    List (List MediaRec × Option Nat × Bool) →
    Except PyExc (SaveResult × List (List MediaRec))
  | [] => .ok (.err, [])
  | (store, cap, fault) :: rest =>
    match saveShardBody m store cap fault with
    | .ok (some (res, st)) => .ok (res, st :: rest.map (fun t => t.1))
    | .ok none =>
        match saveLoop m rest with
        | .ok (res, sts) => .ok (res, store :: sts)
        | .error e => .error e
    | .error _ =>
        match saveLoop m rest with
        | .ok (res, sts) => .ok (res, store :: sts)
        | .error e => .error e

/-- save_file: try DB1, then DB2, then DB3.  Besides the media object it
takes the current three shard stores, the per-shard capacity oracle
results (none = the dbstats call raised) and the per-shard commit fault
flags; it returns the outcome together with the new stores. -/
def save_file (m : MediaIn) (s1 s2 s3 : List MediaRec)
    (c1 c2 c3 : Option Nat) (f1 f2 f3 : Bool) :
    Except PyExc (SaveResult × List (List MediaRec)) :=
  saveLoop m [(s1, c1, f1), (s2, c2, f2), (s3, c3, f3)]

/-! ### Search and query functions -/

/-- The filter document built by the search functions: the compiled
pattern when compilation succeeded, otherwise the stripped query string
itself (an exact-equality filter in Mongo semantics). -/
def mkFilter (query : List Char) (compiled : Option (List Char → Bool)) : FilterQ :=
  { nameF :=
      match compiled with
      | some m => .regex m
      | none => .lit (stripChars query)
    typeF := none }

/-- One shard contribution before the language filter:
find(filter).sort(natural, -1).to_list(length = max_results * 3). -/
def shardPage (s : List MediaRec) (f : FilterQ) (M : Nat) : List MediaRec :=
  ((s.filter (recMatches f)).reverse).take (M * 3)

/-- The language post-filter of get_search_results: a falsy lang (absent
or empty) leaves the list unchanged; otherwise keep the records whose
lowercased file name contains lang (which is used with its original
casing). -/
def applyLang (lang : Option (List Char)) (found : List MediaRec) : List MediaRec :=
  match lang with
  | none => found
  | some [] => found
  | some l => found.filter (fun r => containsSub (lowerChars r.file_name) l)

/-- The per-shard loop of get_search_results, accumulating the result
list and the running total of count_documents. -/
def gsrLoop (f : FilterQ) (M : Nat) (lang : Option (List Char)) :
    List (List MediaRec) → List MediaRec × Nat
  | [] => ([], 0)
  | s :: rest =>
    let found := applyLang lang (shardPage s f M)
    let tail := gsrLoop f M lang rest
    (found ++ tail.1, (s.filter (recMatches f)).length + tail.2)

/-- get_search_results: merge the three shards, sort by the (constant)
generation-time key, slice the page, and compute the next offset with
none as the no-more-pages sentinel. -/
def get_search_results (s1 s2 s3 : List MediaRec) (query : List Char)
    (compiled : Option (List Char → Bool)) (M off : Nat)
    (lang : Option (List Char)) : List MediaRec × Option Nat × Nat :=
  let f := mkFilter query compiled
  let acc := gsrLoop f M lang [s1, s2, s3]
  let results := sortDescBy sortKey acc.1
  let files := (results.drop off).take M
  let nextOff := off + M
  (files, if acc.2 ≤ nextOff then none else some nextOff, acc.2)

/-- The per-shard loop of get_bad_files: the running total is also used
as the to_list length of the current shard. -/
def gbfLoop (f : FilterQ) : List (List MediaRec) → Nat → List MediaRec × Nat
  | [], tot => ([], tot)
  | s :: rest, tot =>
    let tot' := tot + (s.filter (recMatches f)).length
    let part := ((s.filter (recMatches f)).reverse).take tot'
    let tail := gbfLoop f rest tot'
    (part ++ tail.1, tail.2)

/-- get_bad_files: on pattern-compilation failure it returns the empty
list and count zero; otherwise it filters by the pattern and the optional
file_type (a falsy empty string is not added to the filter). -/
def get_bad_files (s1 s2 s3 : List MediaRec) (query : List Char)
    (compiled : Option (List Char → Bool)) (ftype : Option (List Char)) :
    List MediaRec × Nat :=
  match compiled with
  | none => ([], 0)
  | some m =>
    let f : FilterQ :=
      { nameF := .regex m
        typeF :=
          match ftype with
          | none => none
          | some [] => none
          | some t => some t }
    gbfLoop f [s1, s2, s3] 0

/-! Spec-side search definitions (from the words of the claims). -/

/-- The full match list of one shard, most recent first, no truncation. -/
def matchList (s : List MediaRec) (f : FilterQ) : List MediaRec :=
  (s.filter (recMatches f)).reverse

/-- The number of records of the three shards matching a filter. -/
def totalMatches (s1 s2 s3 : List MediaRec) (f : FilterQ) : Nat :=
  ((s1 ++ s2 ++ s3).filter (recMatches f)).length

/-- The page that claim C2 describes: concatenate the (untruncated)
per-shard match lists, sort by descending creation order, slice. -/
def claimedSearchPage (s1 s2 s3 : List MediaRec) (f : FilterQ) (off M : Nat) :
    List MediaRec :=
  ((sortDescBy (fun r => r.created)
      (matchList s1 f ++ matchList s2 f ++ matchList s3 f)).drop off).take M

/-! ### Basic lemmas about the search pipeline -/

theorem insertDescBy_const (x : MediaRec) (l : List MediaRec) :
    insertDescBy sortKey x l = x :: l := by
  cases l with
  | nil => rfl
  | cons y ys => simp [insertDescBy, sortKey]

theorem sortDescBy_const (l : List MediaRec) :
    sortDescBy sortKey l = l := by
  induction l with
  | nil => rfl
  | cons x xs ih => rw [sortDescBy, ih, insertDescBy_const]

/-- The empty pattern is a substring of every string. -/
theorem containsSub_nil (l : List Char) : containsSub l [] = true := by
  cases l <;> simp [containsSub, listStartsWith]

/-- Membership in the merged result list of get_search_results: the record
matches the filter, and when a non-empty language filter is set it occurs
in the lowercased name. -/
theorem gsrLoop_mem (f : FilterQ) (M : Nat) (lang : Option (List Char))
    (shards : List (List MediaRec)) (r : MediaRec)
    (hr : r ∈ (gsrLoop f M lang shards).1) :
    recMatches f r = true ∧
      (∀ l, lang = some l → l ≠ [] →
        containsSub (lowerChars r.file_name) l = true) := by
  induction shards with
  | nil => simp [gsrLoop] at hr
  | cons s rest ih =>
    simp only [gsrLoop, List.mem_append] at hr
    rcases hr with hr | hr
    · have hbase : r ∈ shardPage s f M → recMatches f r = true := by
        intro hm
        have h1 := List.take_subset (M * 3) ((s.filter (recMatches f)).reverse) hm
        rw [List.mem_reverse] at h1
        exact (List.mem_filter.mp h1).2
      cases lang with
      | none =>
        simp only [applyLang] at hr
        refine ⟨hbase hr, ?_⟩
        intro l hl
        cases hl
      | some l =>
        cases l with
        | nil =>
          simp only [applyLang] at hr
          refine ⟨hbase hr, ?_⟩
          intro l' hl' _
          cases hl'
          exact containsSub_nil _
        | cons c cs =>
          simp only [applyLang] at hr
          have hm := List.mem_filter.mp hr
          refine ⟨hbase hm.1, ?_⟩
          intro l' hl' _
          cases hl'
          exact hm.2
    · exact ih hr

/-- Specialisation of gsrLoop_mem to the page returned by
get_search_results. -/
theorem gsr_mem (s1 s2 s3 : List MediaRec) (q : List Char)
    (c : Option (List Char → Bool)) (M off : Nat) (lang : Option (List Char))
    (r : MediaRec) (hr : r ∈ (get_search_results s1 s2 s3 q c M off lang).1) :
    recMatches (mkFilter q c) r = true ∧
      (∀ l, lang = some l → l ≠ [] →
        containsSub (lowerChars r.file_name) l = true) := by
  simp only [get_search_results] at hr
  have h1 := List.take_subset M _ hr
  have h2 := List.drop_subset off _ h1
  rw [sortDescBy_const] at h2
  exact gsrLoop_mem _ _ _ _ _ h2

/-- The save loop never lets an exception escape: every branch of the body
is either handled inside the iteration or caught by the except Exception
handler of the loop. -/
theorem saveLoop_no_raise (m : MediaIn)
    (ts : List (List MediaRec × Option Nat × Bool)) :
    ∃ out, saveLoop m ts = .ok out := by
  induction ts with
  | nil => exact ⟨(.err, []), rfl⟩
  | cons t rest ih =>
    obtain ⟨st, cap, fault⟩ := t
    obtain ⟨⟨res, sts⟩, hout⟩ := ih
    cases h : saveShardBody m st cap fault with
    | ok o =>
      cases o with
      | none => exact ⟨(res, st :: sts), by simp [saveLoop, h, hout]⟩
      | some p => exact ⟨(p.1, p.2 :: rest.map (fun t => t.1)), by simp [saveLoop, h]⟩
    | error e => exact ⟨(res, st :: sts), by simp [saveLoop, h, hout]⟩

/-! ### Claim theorems -/

/-- Claim C10 (confirmed): for every query, offset and max_results, the
page returned by get_search_results has length at most max_results, even
though every shard contributes up to 3 * max_results candidates. -/
theorem search_page_length_le (s1 s2 s3 : List MediaRec) (q : List Char)
    (c : Option (List Char → Bool)) (M off : Nat) (lang : Option (List Char)) :
    ((get_search_results s1 s2 s3 q c M off lang).1).length ≤ M := by
  simp only [get_search_results]
  exact List.length_take_le _ _

/-- Claim C7, counterexample: with all shards empty and below the
ceiling and the first commit raising an unexpected store error, save_file
does not propagate the exception: the error is swallowed by the
except Exception handler, the loop moves on, and the record is saved in
the second shard with outcome suc. -/
theorem save_no_uncaught_cx :
    save_file ⟨⟨0, 0, 0, 0, []⟩, ['a'], some 1, none, none⟩ [] [] []
        (some 0) (some 0) (some 0) true false false =
      .ok (.suc, [[], [recordOf ⟨⟨0, 0, 0, 0, []⟩, ['a'], some 1, none, none⟩ 1], []]) := by
  rfl

/-- Claim C7 (amended): no exception at all crosses the save_file
boundary.  Expected conditions (duplicate key, shard at or above the
ceiling, capacity-check failure) are handled in place, and an unexpected
store error during commit is also caught by the per-shard
except Exception handler, after which the loop continues with the next
shard; save_file always returns an outcome value. -/
theorem save_no_uncaught_amended (m : MediaIn) (s1 s2 s3 : List MediaRec)
    (c1 c2 c3 : Option Nat) (f1 f2 f3 : Bool) :
    ∃ out, save_file m s1 s2 s3 c1 c2 c3 f1 f2 f3 = .ok out :=
  saveLoop_no_raise m [(s1, c1, f1), (s2, c2, f2), (s3, c3, f3)]

/-- Claim C1, counterexample: with reported usages [ceiling - 1, 0, 0] the
capacity test usage < ceiling still holds for shard 1, so the record is
saved in shard 1, not in shard 2 as the claim states. -/
theorem save_overflow_routing_cx :
    save_file ⟨⟨0, 0, 0, 0, []⟩, ['a'], some 1, none, none⟩ [] [] []
        (some (CEILING - 1)) (some 0) (some 0) false false false =
      .ok (.suc, [[recordOf ⟨⟨0, 0, 0, 0, []⟩, ['a'], some 1, none, none⟩ 1], [], []]) ∧
    [[recordOf ⟨⟨0, 0, 0, 0, []⟩, ['a'], some 1, none, none⟩ 1], [], []] ≠
      ([[], [recordOf ⟨⟨0, 0, 0, 0, []⟩, ['a'], some 1, none, none⟩ 1], []] :
        List (List MediaRec)) := by
  constructor
  · rfl
  · decide

/-- Claim C1 (amended): a shard is skipped exactly when its usage is at or
above the ceiling (the probe condition is usage < ceiling), so with
usages [ceiling, 0, 0] a new save lands in shard 2; with usages
[ceiling - 1, 0, 0] it lands in shard 1. -/
theorem save_overflow_routing_amended (d : FileDesc) (name : List Char)
    (sz : Int) (mt capt : Option (List Char)) :
    save_file ⟨d, name, some sz, mt, capt⟩ [] [] []
        (some CEILING) (some 0) (some 0) false false false =
      .ok (.suc, [[], [recordOf ⟨d, name, some sz, mt, capt⟩ sz], []]) := by
  simp [save_file, saveLoop, saveShardBody, mkRecord, commitRec, CEILING]

/-- Claim C2, counterexample: a record of shard 2 more recent than the
record of shard 1 is not moved ahead of it: the page keeps shard order,
because the sort key generation_time is read from the string primary key
and always defaults to 0, so the recency sort of the claim does not
happen. -/
theorem search_page_cx :
    (get_search_results [⟨['k', '1'], none, ['a'], 0, none, none, none, 1⟩]
        [⟨['k', '2'], none, ['b'], 0, none, none, none, 2⟩] [] ['x']
        (some (fun _ => true)) 1 0 none).1 ≠
      claimedSearchPage [⟨['k', '1'], none, ['a'], 0, none, none, none, 1⟩]
        [⟨['k', '2'], none, ['b'], 0, none, none, none, 2⟩] []
        (mkFilter ['x'] (some (fun _ => true))) 0 1 := by
  decide

/-- Claim C2 (amended): the page returned by get_search_results is
obtained by truncating each per-shard match list (most recent first
within the shard) to its first 3 * max_results entries, concatenating
the three truncated lists in the fixed shard order, and slicing
[offset, offset + max_results); the cross-shard recency sort of the
claim is a no-op because its key is the constant 0. -/
theorem search_page_amended (s1 s2 s3 : List MediaRec) (q : List Char)
    (c : Option (List Char → Bool)) (M off : Nat) :
    (get_search_results s1 s2 s3 q c M off none).1 =
      (((matchList s1 (mkFilter q c)).take (M * 3) ++
          (matchList s2 (mkFilter q c)).take (M * 3) ++
          (matchList s3 (mkFilter q c)).take (M * 3)).drop off).take M := by
  simp [get_search_results, gsrLoop, applyLang, shardPage, matchList,
    sortDescBy_const, List.append_assoc]

/-- Claim C6, counterexample: with a query whose pattern fails to compile,
a record whose name contains the query text literally is nevertheless not
returned (the fallback filter is exact equality on the full name, not
substring containment), and get_bad_files returns the empty result rather
than falling back at all. -/
theorem search_degraded_cx :
    containsSub ['a', '[', 'b'] (stripChars ['[']) = true ∧
      (get_search_results [⟨['k'], none, ['a', '[', 'b'], 0, none, none, none, 0⟩]
          [] [] ['['] none 5 0 none).1 = [] ∧
      get_bad_files [⟨['k'], none, ['a', '[', 'b'], 0, none, none, none, 0⟩]
          [] [] ['['] none none = ([], 0) := by
  decide

/-- Claim C6 (amended): when pattern compilation fails, get_search_results
does not raise: it degrades to filtering with the raw stripped query
string, which in store semantics is an exact-equality match on the full
display name (not a substring match), so every returned record has
display name equal to the stripped query; get_bad_files does not fall
back at all and returns the empty list with count zero. -/
theorem search_degraded_amended (s1 s2 s3 : List MediaRec) (q : List Char)
    (M off : Nat) (lang : Option (List Char)) (ftype : Option (List Char)) :
    ((get_search_results s1 s2 s3 q none M off lang).1).all
        (fun r => r.file_name == stripChars q) = true ∧
      get_bad_files s1 s2 s3 q none ftype = ([], 0) := by
  constructor
  · rw [List.all_eq_true]
    intro r hr
    have h := (gsr_mem s1 s2 s3 q none M off lang r hr).1
    simp only [recMatches, mkFilter, Bool.and_true] at h
    exact h
  · rfl

/-- Claim C8, counterexample: the language filter argument is compared
with its original casing against the lowercased name, so the casings
English and english of the filter do not pass the same records: with a
record named a, the filter A returns nothing while a returns the record. -/
theorem lang_filter_cx :
    (get_search_results [⟨['k'], none, ['a'], 0, none, none, none, 0⟩] [] [] ['x']
        (some (fun _ => true)) 1 0 (some ['A'])).1 ≠
      (get_search_results [⟨['k'], none, ['a'], 0, none, none, none, 0⟩] [] [] ['x']
        (some (fun _ => true)) 1 0 (some ['a'])).1 := by
  decide

/-- Claim C8 (amended): every record of the returned page has the
language filter string occurring literally in its lowercased display
name.  The filter argument itself is not lowercased, so the post-filter
is case-insensitive only in the record name, not in the argument: an
argument containing an uppercase letter selects fewer records than its
lowercase form. -/
theorem lang_filter_amended (s1 s2 s3 : List MediaRec) (q : List Char)
    (c : Option (List Char → Bool)) (M off : Nat) (l : List Char) :
    ((get_search_results s1 s2 s3 q c M off (some l)).1).all
        (fun r => containsSub (lowerChars r.file_name) l) = true := by
  rw [List.all_eq_true]
  intro r hr
  rcases eq_or_ne l [] with h | h
  · subst h
    simp [containsSub_nil]
  · exact (gsr_mem s1 s2 s3 q c M off (some l) r hr).2 l rfl h

/-! ### Codec lemmas -/

/-- On an input ending in a non-zero byte, the accumulator loop of the
source computes exactly the run-replacement of the spec (the two differ
only in a zero run reaching the end of the input, which the non-zero
trailer byte rules out). -/
theorem encodeLoop_eq_specRleAux (l : List Nat) (b : Nat) (hb : b ≠ 0) :
    ∀ k, encodeLoop (l ++ [b]) k = specRleAux k (l ++ [b]) := by
  induction l with
  | nil =>
    intro k
    simp [encodeLoop, specRleAux, hb]
  | cons a rest ih =>
    intro k
    rcases eq_or_ne a 0 with ha | ha
    · subst ha
      simp [encodeLoop, specRleAux, ih]
    · simp [encodeLoop, specRleAux, ha, ih]

/-- The zero-run compression is reversible: decoding the compression of a
list preceded by a pending run of k zeros restores the run and the list. -/
theorem rleDecode_specRleAux (l : List Nat) :
    ∀ k, rleDecode (specRleAux k l) = List.replicate k 0 ++ l := by
  induction l with
  | nil =>
    intro k
    cases k with
    | zero => rfl
    | succ k' => simp [specRleAux, rleDecode]
  | cons b rest ih =>
    intro k
    rcases eq_or_ne b 0 with hb | hb
    · subst hb
      rw [specRleAux, if_pos rfl, ih (k + 1), List.replicate_succ']
      simp
    · obtain ⟨m, rfl⟩ := Nat.exists_eq_succ_of_ne_zero hb
      cases k with
      | zero =>
        rw [specRleAux, if_neg hb, if_pos rfl]
        simp [rleDecode, ih 0]
      | succ k' =>
        rw [specRleAux, if_neg hb, if_neg (by omega)]
        simp [rleDecode, ih 0]

/-- Every element of the run replacement is an input byte or a run length
bounded by the pending count plus the input length. -/
theorem specRleAux_mem_le (l : List Nat) :
    ∀ k y, y ∈ specRleAux k l → y ∈ l ∨ y ≤ k + l.length := by
  induction l with
  | nil =>
    intro k y hy
    rcases eq_or_ne k 0 with hk | hk
    · subst hk
      simp [specRleAux] at hy
    · rw [specRleAux, if_neg hk] at hy
      right
      rcases List.mem_cons.mp hy with h | h
      · omega
      · have hyk : y = k := by simpa using h
        simp [hyk]
  | cons b rest ih =>
    intro k y hy
    rcases eq_or_ne b 0 with hb | hb
    · subst hb
      rw [specRleAux, if_pos rfl] at hy
      rcases ih (k + 1) y hy with h | h
      · exact Or.inl (List.mem_cons_of_mem _ h)
      · right
        simp only [List.length_cons]
        omega
    · rw [specRleAux, if_neg hb] at hy
      rcases List.mem_append.mp hy with h | h
      · right
        rcases eq_or_ne k 0 with hk | hk
        · subst hk
          simp at h
        · rw [if_neg hk] at h
          rcases List.mem_cons.mp h with h1 | h1
          · omega
          · have hyk : y = k := by simpa using h1
            simp only [List.length_cons]
            omega
      · rcases List.mem_cons.mp h with h1 | h1
        · exact Or.inl (by simp [h1])
        · rcases ih 0 y h1 with h2 | h2
          · exact Or.inl (List.mem_cons_of_mem _ h2)
          · right
            simp only [List.length_cons]
            omega

/-- Every byte emitted by the run replacement is below 256, as long as
the input bytes are and the input is short enough that no run length
reaches 256. -/
theorem specRleAux_lt_256 (l : List Nat) (k : Nat) (hl : ∀ x ∈ l, x < 256)
    (hk : k + l.length ≤ 255) : ∀ y ∈ specRleAux k l, y < 256 := by
  intro y hy
  rcases specRleAux_mem_le l k y hy with h | h
  · exact hl y h
  · omega

/-- The base64url alphabet map is reversible on six-bit values. -/
theorem b64Char_decode : ∀ n, n < 64 → b64DecodeChar (b64Char n) = n := by
  decide

/-- Padding-free base64url encoding of a byte list is reversible. -/
theorem b64_roundtrip (l : List Nat) (hl : ∀ x ∈ l, x < 256) :
    b64DecodeNoPad (b64EncodeNoPad l) = l := by
  induction l using b64EncodeNoPad.induct with
  | case1 => rfl
  | case2 a =>
    have ha : a < 256 := hl a (by simp)
    simp only [b64EncodeNoPad, b64DecodeNoPad]
    rw [b64Char_decode _ (by omega), b64Char_decode _ (by omega)]
    congr 1
    omega
  | case3 a b =>
    have ha : a < 256 := hl a (by simp)
    have hb : b < 256 := hl b (by simp)
    simp only [b64EncodeNoPad, b64DecodeNoPad]
    rw [b64Char_decode _ (by omega), b64Char_decode _ (by omega),
      b64Char_decode _ (by omega)]
    congr 1
    · omega
    · congr 1
      omega
  | case4 a b c rest ih =>
    have ha : a < 256 := hl a (by simp)
    have hb : b < 256 := hl b (by simp)
    have hc : c < 256 := hl c (by simp)
    have hrest : ∀ x ∈ rest, x < 256 := by
      intro x hx
      exact hl x (by simp [hx])
    simp only [b64EncodeNoPad, b64DecodeNoPad]
    rw [b64Char_decode _ (by omega), b64Char_decode _ (by omega),
      b64Char_decode _ (by omega), b64Char_decode _ (by omega), ih hrest]
    congr 1
    · omega
    · congr 1
      · omega
      · congr 1
        omega

theorem toBytesLE_length (w : Nat) : ∀ v, (toBytesLE w v).length = w := by
  induction w with
  | zero => intro v; rfl
  | succ w ih => intro v; simp [toBytesLE, ih]

theorem toBytesLE_mem_lt (w : Nat) : ∀ v, ∀ x ∈ toBytesLE w v, x < 256 := by
  induction w with
  | zero => intro v x hx; simp [toBytesLE] at hx
  | succ w ih =>
    intro v x hx
    simp only [toBytesLE, List.mem_cons] at hx
    rcases hx with h | h
    · omega
    · exact ih _ x h

theorem fromBytesLE_toBytesLE (w : Nat) :
    ∀ v, fromBytesLE (toBytesLE w v) = v % 256 ^ w := by
  induction w with
  | zero =>
    intro v
    simp [toBytesLE, fromBytesLE, Nat.mod_one]
  | succ w ih =>
    intro v
    rw [toBytesLE, fromBytesLE, ih (v / 256), pow_succ']
    rw [Nat.mod_mul]

theorem int32LE_length (x : Int) : (int32LE x).length = 4 :=
  toBytesLE_length 4 _

theorem int64LE_length (x : Int) : (int64LE x).length = 8 :=
  toBytesLE_length 8 _

theorem int32LE_inj (x y : Int) (hx : i32Bounded x) (hy : i32Bounded y)
    (h : int32LE x = int32LE y) : x = y := by
  unfold int32LE at h
  have h2 := congrArg fromBytesLE h
  rw [fromBytesLE_toBytesLE, fromBytesLE_toBytesLE] at h2
  have hN : (256 : Nat) ^ 4 = 4294967296 := by norm_num
  rw [hN] at h2
  unfold i32Bounded at hx hy
  omega

theorem int64LE_inj (x y : Int) (hx : i64Bounded x) (hy : i64Bounded y)
    (h : int64LE x = int64LE y) : x = y := by
  unfold int64LE at h
  have h2 := congrArg fromBytesLE h
  rw [fromBytesLE_toBytesLE, fromBytesLE_toBytesLE] at h2
  have hN : (256 : Nat) ^ 8 = 18446744073709551616 := by norm_num
  rw [hN] at h2
  unfold i64Bounded at hx hy
  omega

theorem pack_iiqq_length (a b c d : Int) : (pack_iiqq a b c d).length = 24 := by
  simp [pack_iiqq, int32LE_length, int64LE_length]

theorem pack_iiqq_mem_lt (a b c d : Int) :
    ∀ x ∈ pack_iiqq a b c d, x < 256 := by
  intro x hx
  simp only [pack_iiqq, int32LE, int64LE, List.mem_append] at hx
  rcases hx with ((h | h) | h) | h <;> exact toBytesLE_mem_lt _ _ x h

theorem pack_iiqq_inj (a b c d a' b' c' d' : Int)
    (ha : i32Bounded a) (hb : i32Bounded b) (hc : i64Bounded c)
    (hd : i64Bounded d) (ha' : i32Bounded a') (hb' : i32Bounded b')
    (hc' : i64Bounded c') (hd' : i64Bounded d')
    (h : pack_iiqq a b c d = pack_iiqq a' b' c' d') :
    a = a' ∧ b = b' ∧ c = c' ∧ d = d' := by
  unfold pack_iiqq at h
  rw [List.append_assoc, List.append_assoc, List.append_assoc,
    List.append_assoc] at h
  obtain ⟨e1, h⟩ := List.append_inj h (by rw [int32LE_length, int32LE_length])
  obtain ⟨e2, h⟩ := List.append_inj h (by rw [int32LE_length, int32LE_length])
  obtain ⟨e3, e4⟩ := List.append_inj h (by rw [int64LE_length, int64LE_length])
  exact ⟨int32LE_inj _ _ ha ha' e1, int32LE_inj _ _ hb hb' e2,
    int64LE_inj _ _ hc hc' e3, int64LE_inj _ _ hd hd' e4⟩

/-- Claim C3 (confirmed): the storage key produced by unpack_new_file_id
is exactly the transform the spec describes — pack the four fields little
endian, append the two trailer bytes, replace every run of N zero bytes
by the pair 0, N, base64url encode and strip the padding — and the
reference token is the padding-free base64url encoding of the raw
reference blob. -/
theorem codec_transform_eq (d : FileDesc) :
    unpack_new_file_id d = (storageKeySpec d, refTokenSpec d) := by
  unfold unpack_new_file_id storageKeySpec refTokenSpec encode_file_id
    encode_file_ref specRle
  have h : pack_iiqq d.file_type d.dc_id d.media_id d.access_hash ++ [22, 4] =
      (pack_iiqq d.file_type d.dc_id d.media_id d.access_hash ++ [22]) ++ [4] := by
    simp
  rw [h, encodeLoop_eq_specRleAux _ 4 (by omega)]

/-- Claim C4 (confirmed): descriptors differing in any of the four packed
fields (within the ranges struct.pack accepts) yield different storage
keys: the zero-run compression followed by base64url encoding is
injective on the packed 24-byte tuples. -/
theorem codec_collision_free (d1 d2 : FileDesc)
    (h1 : i32Bounded d1.file_type) (h2 : i32Bounded d1.dc_id)
    (h3 : i64Bounded d1.media_id) (h4 : i64Bounded d1.access_hash)
    (h5 : i32Bounded d2.file_type) (h6 : i32Bounded d2.dc_id)
    (h7 : i64Bounded d2.media_id) (h8 : i64Bounded d2.access_hash)
    (hne : (d1.file_type, d1.dc_id, d1.media_id, d1.access_hash) ≠
      (d2.file_type, d2.dc_id, d2.media_id, d2.access_hash)) :
    (unpack_new_file_id d1).1 ≠ (unpack_new_file_id d2).1 := by
  intro h
  apply hne
  simp only [unpack_new_file_id, encode_file_id] at h
  have hassoc : ∀ p : List Nat, p ++ [22, 4] = (p ++ [22]) ++ [4] := by
    intro p; simp
  rw [hassoc, hassoc, encodeLoop_eq_specRleAux _ 4 (by omega),
    encodeLoop_eq_specRleAux _ 4 (by omega)] at h
  have hbound : ∀ a b c d : Int,
      ∀ y ∈ specRleAux 0 ((pack_iiqq a b c d ++ [22]) ++ [4]), y < 256 := by
    intro a b c d
    refine specRleAux_lt_256 _ 0 ?_ ?_
    · intro x hx
      simp only [List.append_assoc, List.mem_append] at hx
      rcases hx with hx | hx
      · exact pack_iiqq_mem_lt a b c d x hx
      · simp at hx
        omega
    · simp [pack_iiqq_length]
  have hh2 := congrArg b64DecodeNoPad h
  rw [b64_roundtrip _ (hbound _ _ _ _), b64_roundtrip _ (hbound _ _ _ _)] at hh2
  have hh3 := congrArg rleDecode hh2
  rw [rleDecode_specRleAux, rleDecode_specRleAux] at hh3
  simp only [List.replicate, List.nil_append, List.append_assoc] at hh3
  have hh4 := (List.append_inj hh3 (by rw [pack_iiqq_length, pack_iiqq_length])).1
  obtain ⟨e1, e2, e3, e4⟩ :=
    pack_iiqq_inj _ _ _ _ _ _ _ _ h1 h2 h3 h4 h5 h6 h7 h8 hh4
  simp [e1, e2, e3, e4]

/-- Witness for C4 at a concrete pair of descriptors differing in the
file type field. -/
theorem codec_collision_free_witness :
    (i32Bounded 0 ∧ i64Bounded 0 ∧ i32Bounded 1 ∧
      ((0 : Int), (0 : Int), (0 : Int), (0 : Int)) ≠ ((1 : Int), 0, 0, 0)) ∧
    (unpack_new_file_id ⟨0, 0, 0, 0, []⟩).1 ≠
      (unpack_new_file_id ⟨1, 0, 0, 0, []⟩).1 :=
  ⟨by decide,
    codec_collision_free ⟨0, 0, 0, 0, []⟩ ⟨1, 0, 0, 0, []⟩ (by decide)
      (by decide) (by decide) (by decide) (by decide) (by decide) (by decide)
      (by decide) (by decide)⟩

/-- Claim C9 (confirmed): saving twice with descriptors that encode to
the same storage key, both calls routed to the first shard, yields suc
then dup, the second call changes no store, and the shard afterwards
holds exactly one record with that key. -/
theorem save_duplicate_idempotent (m1 m2 : MediaIn) (sz1 sz2 : Int)
    (s1 s2 s3 : List MediaRec)
    (hsz1 : m1.file_size = some sz1) (hsz2 : m2.file_size = some sz2)
    (hkey : (unpack_new_file_id m1.file_id).1 = (unpack_new_file_id m2.file_id).1)
    (hab : s1.any (fun x => x.file_id == (unpack_new_file_id m1.file_id).1) = false) :
    save_file m1 s1 s2 s3 (some 0) (some 0) (some 0) false false false =
      .ok (.suc, [s1 ++ [recordOf m1 sz1], s2, s3]) ∧
    save_file m2 (s1 ++ [recordOf m1 sz1]) s2 s3 (some 0) (some 0) (some 0)
        false false false =
      .ok (.dup, [s1 ++ [recordOf m1 sz1], s2, s3]) ∧
    ((s1 ++ [recordOf m1 sz1]).filter
        (fun x => x.file_id == (unpack_new_file_id m1.file_id).1)).length = 1 := by
  have hceil : (0 : Nat) < CEILING := by norm_num [CEILING]
  have hfid1 : (recordOf m1 sz1).file_id = (unpack_new_file_id m1.file_id).1 := rfl
  have hfid2 : (recordOf m2 sz2).file_id = (unpack_new_file_id m1.file_id).1 := by
    rw [hkey]; rfl
  refine ⟨?_, ?_, ?_⟩
  · simp [save_file, saveLoop, saveShardBody, mkRecord, hsz1, commitRec, hceil,
      hfid1, hab]
  · simp [save_file, saveLoop, saveShardBody, mkRecord, hsz2, commitRec, hceil,
      List.any_append, hab, hfid1, hfid2]
  · rw [List.filter_append]
    have hnil : s1.filter (fun x => x.file_id == (unpack_new_file_id m1.file_id).1) = [] := by
      rw [List.filter_eq_nil_iff]
      intro a ha
      have := (List.any_eq_false.mp hab) a ha
      simpa using this
    rw [hnil]
    simp [hfid1]

/-- Witness for C9 at a concrete media object and empty stores. -/
theorem save_duplicate_idempotent_witness :
    ((⟨⟨0, 0, 0, 0, []⟩, ['a'], some 1, none, none⟩ : MediaIn).file_size = some 1 ∧
      (unpack_new_file_id (⟨0, 0, 0, 0, []⟩ : FileDesc)).1 =
        (unpack_new_file_id (⟨0, 0, 0, 0, []⟩ : FileDesc)).1 ∧
      ([] : List MediaRec).any
        (fun x => x.file_id ==
          (unpack_new_file_id (⟨0, 0, 0, 0, []⟩ : FileDesc)).1) = false) ∧
    (save_file ⟨⟨0, 0, 0, 0, []⟩, ['a'], some 1, none, none⟩ [] [] []
        (some 0) (some 0) (some 0) false false false =
      .ok (.suc, [[recordOf ⟨⟨0, 0, 0, 0, []⟩, ['a'], some 1, none, none⟩ 1], [], []]) ∧
    save_file ⟨⟨0, 0, 0, 0, []⟩, ['a'], some 1, none, none⟩
        [recordOf ⟨⟨0, 0, 0, 0, []⟩, ['a'], some 1, none, none⟩ 1] [] []
        (some 0) (some 0) (some 0) false false false =
      .ok (.dup, [[recordOf ⟨⟨0, 0, 0, 0, []⟩, ['a'], some 1, none, none⟩ 1], [], []]) ∧
    ([recordOf ⟨⟨0, 0, 0, 0, []⟩, ['a'], some 1, none, none⟩ 1].filter
        (fun x => x.file_id ==
          (unpack_new_file_id (⟨0, 0, 0, 0, []⟩ : FileDesc)).1)).length = 1) :=
  ⟨⟨rfl, rfl, rfl⟩,
    save_duplicate_idempotent ⟨⟨0, 0, 0, 0, []⟩, ['a'], some 1, none, none⟩
      ⟨⟨0, 0, 0, 0, []⟩, ['a'], some 1, none, none⟩ 1 1 [] [] [] rfl rfl rfl rfl⟩

/-! ### Pagination lemmas -/

/-- The merged result list of get_search_results without language filter. -/
theorem gsr_files_none (s1 s2 s3 : List MediaRec) (q : List Char)
    (c : Option (List Char → Bool)) (M off : Nat) :
    (get_search_results s1 s2 s3 q c M off none).1 =
      ((shardPage s1 (mkFilter q c) M ++ shardPage s2 (mkFilter q c) M ++
        shardPage s3 (mkFilter q c) M).drop off).take M := by
  simp [get_search_results, gsrLoop, applyLang, sortDescBy_const,
    List.append_assoc]

/-- The running count accumulated by the shard loop equals the count of
matches across the concatenated stores. -/
theorem gsrLoop_total (s1 s2 s3 : List MediaRec) (f : FilterQ) (M : Nat)
    (lang : Option (List Char)) :
    (gsrLoop f M lang [s1, s2, s3]).2 = totalMatches s1 s2 s3 f := by
  simp [gsrLoop, totalMatches, List.filter_append, Nat.add_assoc]

/-- The total returned by get_search_results counts all matches. -/
theorem gsr_total (s1 s2 s3 : List MediaRec) (q : List Char)
    (c : Option (List Char → Bool)) (M off : Nat) (lang : Option (List Char)) :
    (get_search_results s1 s2 s3 q c M off lang).2.2 =
      totalMatches s1 s2 s3 (mkFilter q c) := by
  simp only [get_search_results]
  rw [gsrLoop_total]

/-- The next offset returned by get_search_results: offset + max_results,
or the sentinel once that reaches the total. -/
theorem gsr_nextoff (s1 s2 s3 : List MediaRec) (q : List Char)
    (c : Option (List Char → Bool)) (M off : Nat) (lang : Option (List Char)) :
    (get_search_results s1 s2 s3 q c M off lang).2.1 =
      if totalMatches s1 s2 s3 (mkFilter q c) ≤ off + M then none
      else some (off + M) := by
  simp only [get_search_results]
  rw [gsrLoop_total]

/-- Slicing a list at offsets 0, M, 2M, … and concatenating restores the
list, provided enough slices are taken. -/
theorem bind_range_slices (M : Nat) (hM : 0 < M) :
    ∀ (n : Nat) (l : List MediaRec), l.length ≤ n * M →
      (List.range n).flatMap (fun k => (l.drop (k * M)).take M) = l := by
  intro n
  induction n with
  | zero =>
    intro l hl
    have hnil : l = [] := List.eq_nil_of_length_eq_zero (by simpa using hl)
    simp [hnil]
  | succ n ih =>
    intro l hl
    rw [List.range_succ_eq_map, List.flatMap_cons, List.flatMap_map]
    have hshift : ∀ a : Nat,
        List.take M (List.drop (Nat.succ a * M) l) =
          List.take M (List.drop (a * M) (List.drop M l)) := by
      intro a
      rw [List.drop_drop, Nat.succ_mul, Nat.add_comm]
    simp only [Nat.zero_mul, List.drop_zero, hshift]
    rw [ih (l.drop M) (by rw [Nat.succ_mul] at hl; simp; omega)]
    exact List.take_append_drop M l

/-- Enough pages of size M cover a list of length T when the page count is
the ceiling of T / M. -/
theorem ceil_mul_ge (T M : Nat) (hM : 0 < M) : T ≤ (T + M - 1) / M * M := by
  have h1 := Nat.div_add_mod (T + M - 1) M
  have h2 : (T + M - 1) % M < M := Nat.mod_lt _ hM
  rw [Nat.mul_comm] at h1
  omega

/-- The total match count is the sum of the per-shard match list lengths. -/
theorem totalMatches_eq_sum (s1 s2 s3 : List MediaRec) (f : FilterQ) :
    totalMatches s1 s2 s3 f =
      (matchList s1 f).length + (matchList s2 f).length +
        (matchList s3 f).length := by
  simp [totalMatches, matchList, List.filter_append, Nat.add_assoc]

/-- A truncated shard page is the whole match list once the shard has at
most M * 3 matches. -/
theorem shardPage_eq_matchList (s : List MediaRec) (f : FilterQ) (M : Nat)
    (h : (s.filter (recMatches f)).length ≤ M * 3) :
    shardPage s f M = matchList s f := by
  unfold shardPage matchList
  exact List.take_of_length_le (by simpa using h)

/-- The match list of a shard keeps only members of the shard. -/
theorem matchList_subset (s : List MediaRec) (f : FilterQ) :
    ∀ r ∈ matchList s f, r ∈ s := by
  intro r hr
  unfold matchList at hr
  rw [List.mem_reverse] at hr
  exact (List.mem_filter.mp hr).1

/-- The match list of a shard with distinct records is itself free of
repetitions. -/
theorem matchList_nodup (s : List MediaRec) (f : FilterQ) (h : s.Nodup) :
    (matchList s f).Nodup := by
  unfold matchList
  rw [List.nodup_reverse]
  exact h.filter _

/-- The concatenation of the three per-shard match lists inherits
distinctness from the concatenated stores. -/
theorem matchLists_nodup (s1 s2 s3 : List MediaRec) (f : FilterQ)
    (hnd : (s1 ++ s2 ++ s3).Nodup) :
    (matchList s1 f ++ matchList s2 f ++ matchList s3 f).Nodup := by
  rw [List.append_assoc] at hnd
  rw [List.nodup_append] at hnd
  obtain ⟨n1, h23, d1⟩ := hnd
  rw [List.nodup_append] at h23
  obtain ⟨n2, n3, d23⟩ := h23
  rw [List.append_assoc, List.nodup_append]
  refine ⟨matchList_nodup _ _ n1, ?_, ?_⟩
  · rw [List.nodup_append]
    refine ⟨matchList_nodup _ _ n2, matchList_nodup _ _ n3, ?_⟩
    intro a ha hb
    exact d23 (matchList_subset _ _ a ha) (matchList_subset _ _ a hb)
  · intro a ha hb
    rcases List.mem_append.mp hb with hb | hb
    · exact d1 (matchList_subset _ _ a ha)
        (List.mem_append.mpr (Or.inl (matchList_subset _ _ a hb)))
    · exact d1 (matchList_subset _ _ a ha)
        (List.mem_append.mpr (Or.inr (matchList_subset _ _ a hb)))

/-- Claim C5, counterexample: one shard with four matching records and
max_results = 1.  The in-memory merge keeps only 3 * max_results = 3
records per shard, so concatenating the pages at offsets 0, 1, 2, 3
yields only 3 records while total_count is 4: pagination misses a
record, contradicting the claim. -/
theorem search_pagination_cx :
    ((List.range 4).flatMap (fun k =>
      (get_search_results
        [⟨['1'], none, ['a'], 0, none, none, none, 1⟩,
         ⟨['2'], none, ['a'], 0, none, none, none, 2⟩,
         ⟨['3'], none, ['a'], 0, none, none, none, 3⟩,
         ⟨['4'], none, ['a'], 0, none, none, none, 4⟩] [] [] ['x']
        (some (fun _ => true)) 1 (k * 1) none).1)).length = 3 ∧
    (get_search_results
        [⟨['1'], none, ['a'], 0, none, none, none, 1⟩,
         ⟨['2'], none, ['a'], 0, none, none, none, 2⟩,
         ⟨['3'], none, ['a'], 0, none, none, none, 3⟩,
         ⟨['4'], none, ['a'], 0, none, none, none, 4⟩] [] [] ['x']
        (some (fun _ => true)) 1 0 none).2.2 = 4 := by
  decide

/-- Claim C5 (amended): provided every shard holds at most 3 * max_results
matches (so the per-shard in-memory truncation is not hit), the stores
hold distinct records and there is no language filter, paging through
offsets 0, M, 2M, … and concatenating yields exactly total_count distinct
records with no repetition; every call reports the full total, and a call
returns next_offset = offset + M until that reaches total_count, from
which point it returns the no-more-pages sentinel. -/
theorem search_pagination_amended (s1 s2 s3 : List MediaRec) (q : List Char)
    (m : List Char → Bool) (M : Nat) (hM : 0 < M)
    (h1 : (s1.filter (recMatches (mkFilter q (some m)))).length ≤ M * 3)
    (h2 : (s2.filter (recMatches (mkFilter q (some m)))).length ≤ M * 3)
    (h3 : (s3.filter (recMatches (mkFilter q (some m)))).length ≤ M * 3)
    (hnd : (s1 ++ s2 ++ s3).Nodup) :
    ((List.range ((totalMatches s1 s2 s3 (mkFilter q (some m)) + M - 1) / M)).flatMap
        (fun k => (get_search_results s1 s2 s3 q (some m) M (k * M) none).1)).length =
      totalMatches s1 s2 s3 (mkFilter q (some m)) ∧
    ((List.range ((totalMatches s1 s2 s3 (mkFilter q (some m)) + M - 1) / M)).flatMap
        (fun k => (get_search_results s1 s2 s3 q (some m) M (k * M) none).1)).Nodup ∧
    (∀ off, (get_search_results s1 s2 s3 q (some m) M off none).2.2 =
      totalMatches s1 s2 s3 (mkFilter q (some m))) ∧
    (∀ off, (get_search_results s1 s2 s3 q (some m) M off none).2.1 =
      if totalMatches s1 s2 s3 (mkFilter q (some m)) ≤ off + M then none
      else some (off + M)) := by
  have hpage : ∀ off, (get_search_results s1 s2 s3 q (some m) M off none).1 =
      (((matchList s1 (mkFilter q (some m)) ++ matchList s2 (mkFilter q (some m)) ++
        matchList s3 (mkFilter q (some m))).drop off).take M) := by
    intro off
    rw [gsr_files_none, shardPage_eq_matchList _ _ _ h1,
      shardPage_eq_matchList _ _ _ h2, shardPage_eq_matchList _ _ _ h3]
  have hlen : (matchList s1 (mkFilter q (some m)) ++ matchList s2 (mkFilter q (some m)) ++
      matchList s3 (mkFilter q (some m))).length =
      totalMatches s1 s2 s3 (mkFilter q (some m)) := by
    rw [totalMatches_eq_sum]
    simp [Nat.add_assoc]
  have hbind : ((List.range ((totalMatches s1 s2 s3 (mkFilter q (some m)) + M - 1) / M)).flatMap
      (fun k => (get_search_results s1 s2 s3 q (some m) M (k * M) none).1)) =
      (matchList s1 (mkFilter q (some m)) ++ matchList s2 (mkFilter q (some m)) ++
        matchList s3 (mkFilter q (some m))) := by
    simp only [hpage]
    refine bind_range_slices M hM _ _ ?_
    rw [hlen]
    exact ceil_mul_ge _ _ hM
  refine ⟨?_, ?_, ?_, ?_⟩
  · rw [hbind, hlen]
  · rw [hbind]
    exact matchLists_nodup s1 s2 s3 _ hnd
  · intro off
    exact gsr_total s1 s2 s3 q (some m) M off none
  · intro off
    exact gsr_nextoff s1 s2 s3 q (some m) M off none

/-- Witness for C5 with a single matching record and page size one. -/
theorem search_pagination_amended_witness :
    ((0 : Nat) < 1 ∧
      (([⟨['1'], none, ['a'], 0, none, none, none, 1⟩] :
          List MediaRec).filter
        (recMatches (mkFilter ['x'] (some (fun _ => true))))).length ≤ 1 * 3 ∧
      (([] : List MediaRec).filter
        (recMatches (mkFilter ['x'] (some (fun _ => true))))).length ≤ 1 * 3 ∧
      (([⟨['1'], none, ['a'], 0, none, none, none, 1⟩] : List MediaRec) ++
        [] ++ []).Nodup) ∧
    (((List.range ((totalMatches [⟨['1'], none, ['a'], 0, none, none, none, 1⟩]
          [] [] (mkFilter ['x'] (some (fun _ => true))) + 1 - 1) / 1)).flatMap
        (fun k => (get_search_results [⟨['1'], none, ['a'], 0, none, none, none, 1⟩]
          [] [] ['x'] (some (fun _ => true)) 1 (k * 1) none).1)).length =
      totalMatches [⟨['1'], none, ['a'], 0, none, none, none, 1⟩] [] []
        (mkFilter ['x'] (some (fun _ => true))) ∧
    ((List.range ((totalMatches [⟨['1'], none, ['a'], 0, none, none, none, 1⟩]
          [] [] (mkFilter ['x'] (some (fun _ => true))) + 1 - 1) / 1)).flatMap
        (fun k => (get_search_results [⟨['1'], none, ['a'], 0, none, none, none, 1⟩]
          [] [] ['x'] (some (fun _ => true)) 1 (k * 1) none).1)).Nodup ∧
    (∀ off, (get_search_results [⟨['1'], none, ['a'], 0, none, none, none, 1⟩]
        [] [] ['x'] (some (fun _ => true)) 1 off none).2.2 =
      totalMatches [⟨['1'], none, ['a'], 0, none, none, none, 1⟩] [] []
        (mkFilter ['x'] (some (fun _ => true)))) ∧
    (∀ off, (get_search_results [⟨['1'], none, ['a'], 0, none, none, none, 1⟩]
        [] [] ['x'] (some (fun _ => true)) 1 off none).2.1 =
      if totalMatches [⟨['1'], none, ['a'], 0, none, none, none, 1⟩] [] []
          (mkFilter ['x'] (some (fun _ => true))) ≤ off + 1 then none
      else some (off + 1))) :=
  ⟨⟨by decide, by decide, by decide, by decide⟩,
    search_pagination_amended [⟨['1'], none, ['a'], 0, none, none, none, 1⟩]
      [] [] ['x'] (fun _ => true) 1 (by decide) (by decide) (by decide)
      (by decide) (by decide)⟩

end OttFilter
